import Mathlib

/-
  Verification development for the tranqap remote packet-capture controller.

  Shallow embedding of the core data structures and operations:
  * `MultiOutput` (package output): the FanOut that multiplexes one PCAP byte
    stream to several sinks and replays the 24-byte header to late joiners.
  * `Storage` (package capture): the Registry of active Capturers keyed by
    target name, with a wait-group counter.
  * `Target` / config validation (cmd/tranqap/config.go): field defaulting and
    rejection of invalid targets.

  Go machine behaviour is made explicit: a slice expression `p[0:k]` with
  `k > len(p)` is a runtime panic, and `sync.WaitGroup.Done` on a zero counter
  is a runtime panic; fallible operations therefore return `Option`, with
  `none` standing for a panic.
-/

namespace Tranqap

/-! ## FanOut / MultiOutput (package output) -/

/-- Byte values carried by the capture stream. -/
abbrev Byte := Nat

/-- Size of the PCAP global header: `const pcapHeaderSize = 24`. -/
def pcapHeaderSize : Nat := 24

/-- One member Outputer of a MultiOutput, identified by `sid` (in Go the
identity is the interface value / address). `received` records, in order, every
byte the sink's `Write` has been handed. -/
structure Sink where
  sid : Nat
  received : List Byte
deriving DecidableEq

/-- State of `output.MultiOutput`: the captured header prefix, the membership
slice, and the outstanding-ext-sinks wait-group counter. `stream` is a ghost
field recording every byte ever passed to `Write`, used to state invariants. -/
structure MultiOutput where
  pcapHeader : List Byte
  members : List Sink
  wgCount : Nat
  stream : List Byte
deriving DecidableEq

/-- Embeds `NewMultiOutput(outputers ...Outputer)`: the construction-time
outputers become members, the header is empty and the wait-group counter is
not incremented for them. -/
def MultiOutput.new (outs : List Nat) : MultiOutput :=
  { pcapHeader := []
  , members := outs.map fun i => { sid := i, received := [] }
  , wgCount := 0
  , stream := [] }

/-- Embeds `MultiOutput.Write(p)`. The Go code runs
`mo.pcapHeader = append(mo.pcapHeader, p[0:pcapHeaderSize-currHdrLen]...)`
whenever `currHdrLen < pcapHeaderSize`; the slice expression panics when
`len(p) < pcapHeaderSize - currHdrLen`, which `none` models. Afterwards the
whole buffer is forwarded to every current member. -/
def MultiOutput.write (mo : MultiOutput) (p : List Byte) : Option MultiOutput :=
  let currHdrLen := mo.pcapHeader.length
  if currHdrLen < pcapHeaderSize then
    if pcapHeaderSize - currHdrLen ≤ p.length then
      some { pcapHeader := mo.pcapHeader ++ p.take (pcapHeaderSize - currHdrLen)
           , members := mo.members.map fun s => { s with received := s.received ++ p }
           , wgCount := mo.wgCount
           , stream := mo.stream ++ p }
    else
      none
  else
    some { mo with
           members := mo.members.map fun s => { s with received := s.received ++ p }
         , stream := mo.stream ++ p }

/-- Embeds a successful `MultiOutput.AddExtMember(newOutFn)`: the factory
yields a sink, the wait-group counter is incremented, the currently captured
header bytes are written to the new sink (`newMember.Write(mo.pcapHeader)`),
and only then is the sink appended to the membership slice. -/
def MultiOutput.addExtMember (mo : MultiOutput) (sid : Nat) : MultiOutput :=
  { mo with
    wgCount := mo.wgCount + 1
  , members := mo.members ++ [{ sid := sid, received := mo.pcapHeader }] }

/-- An operation performed on a MultiOutput by its producer or by the user. -/
inductive FanOp where
  | write (p : List Byte)
  | addSink (sid : Nat)
deriving DecidableEq

/-- One operation step on a MultiOutput (`none` = panic). -/
def fanStep (mo : MultiOutput) : FanOp → Option MultiOutput
  | .write p => mo.write p
  | .addSink sid => some (mo.addExtMember sid)

/-- Runs a sequence of operations on a MultiOutput. -/
def fanRun (mo : MultiOutput) : List FanOp → Option MultiOutput
  | [] => some mo
  | op :: ops => (fanStep mo op).bind (fanRun · ops)

/-- Number of (successful) AddSink operations in a trace. -/
def countAddSink : List FanOp → Nat
  | [] => 0
  | .addSink _ :: ops => countAddSink ops + 1
  | .write _ :: ops => countAddSink ops

/-- The header capture rule as the specification sentence words it for claim
C2: on a Write, `min(len(p), 24 - len(header))` bytes of `p` are appended to
the header. This is the spec reading under comparison; it is not the code. -/
def specHeaderAfterWrite (hdr p : List Byte) : List Byte :=
  hdr ++ p.take (min p.length (pcapHeaderSize - hdr.length))

/-! ## Registry / Storage (package capture) -/

/-- One Capturer as the Registry sees it: its target name (the map key and
event identity), a tag `cid` distinguishing distinct Capturer values with the
same name, and `outputers`, the number of sinks added via `AddOutputer`. -/
structure Capturer where
  name : String
  cid : Nat
  outputers : Nat
deriving DecidableEq

/-- State of `capture.Storage`: the name-keyed map of Capturers (as an
association list with unique names) and the wait-group counter. -/
structure Storage where
  capturers : List Capturer
  wgCount : Nat
deriving DecidableEq

/-- Embeds `NewStorage()`: empty map, zero wait-group counter. -/
def Storage.new : Storage := { capturers := [], wgCount := 0 }

/-- The `_, exists := c.capturers[name]` membership test. -/
def Storage.hasName (st : Storage) (n : String) : Bool :=
  st.capturers.any fun c => c.name == n

/-- Embeds `Storage.Add(newCapt)`: on a duplicate name, return the error and
leave the state untouched; otherwise insert and increment the wait-group. -/
def Storage.add (st : Storage) (c : Capturer) : Storage × Option String :=
  if st.hasName c.name then
    (st, some ("capturer [" ++ c.name ++ "] already exists"))
  else
    ({ capturers := st.capturers ++ [c], wgCount := st.wgCount + 1 }, none)

/-- Removal of the entry keyed by `n`, as `delete(c.capturers, e.from)` does on
the map: the (first) capturer with that name is dropped; absent keys are a
no-op. -/
def removeByName (n : String) : List Capturer → List Capturer
  | [] => []
  | c :: cs => if c.name == n then cs else c :: removeByName n cs

/-- Embeds one iteration of `Storage.eventHandler` for an event naming `n`:
`delete(c.capturers, e.from)` followed by an unconditional `c.wg.Done()`.
`sync.WaitGroup.Done` on a zero counter panics, which `none` models. -/
def Storage.eventStep (st : Storage) (n : String) : Option Storage :=
  if st.wgCount = 0 then none
  else some { capturers := removeByName n st.capturers, wgCount := st.wgCount - 1 }

/-- An operation on the Registry: an `Add` call (its error, if any, is shown to
the caller and the state is kept), or one lifecycle event consumed by the
handler. -/
inductive StorOp where
  | add (c : Capturer)
  | event (n : String)
deriving DecidableEq

/-- One Registry step (`none` = panic). -/
def storStep (st : Storage) : StorOp → Option Storage
  | .add c => some (st.add c).1
  | .event n => st.eventStep n

/-- Runs a sequence of operations on a Storage. -/
def storRun (st : Storage) : List StorOp → Option Storage
  | [] => some st
  | op :: ops => (storStep st op).bind (storRun · ops)

/-- Holds when every event in the trace names a capturer present in the map at
the moment the handler consumes it (i.e. no duplicate or stray events). -/
def goodTrace (st : Storage) : List StorOp → Bool
  | [] => true
  | .add c :: ops => goodTrace (st.add c).1 ops
  | .event n :: ops =>
      match st.eventStep n with
      | some st' => st.hasName n && goodTrace st' ops
      | none => false

/-- Embeds `Storage.StopAll`, whose receiver may be a nil pointer (`none`).
The result's first component is the storage state afterwards and the second
lists the names whose `Stop()` was invoked; the outer `Option` is `none` on a
panic. The method starts with an explicit nil-receiver guard that logs and
returns, so the nil case completes without touching any state. -/
def Storage.stopAll (c : Option Storage) : Option (Option Storage × List String) :=
  match c with
  | none => some (none, [])
  | some st => some (some st, st.capturers.map fun cp => cp.name)

/-- The feedback message `fmt.Sprintf("Target <%s> doesn't exist.\n", t)`. -/
def targetMissingMsg (t : String) : String :=
  "Target <" ++ t ++ "> doesn't exist.\n"

/-- The `capt.AddOutputer(factFn)` call on the capturer keyed by `n`: the
matching map entry gains one outputer. -/
def addOutputerTo (n : String) : List Capturer → List Capturer
  | [] => []
  | c :: cs =>
      if c.name == n then { c with outputers := c.outputers + 1 } :: cs
      else c :: addOutputerTo n cs

/-- The `for _, t := range targets` loop of `Storage.AddNewOutput`: known names
get an outputer added on the matching capturer, unknown names produce one
feedback message each, in iteration order. (`AddOutputer` failures are only
logged, not fed back, and are not modelled.) -/
def addOutputLoop (st : Storage) : List String → Storage × List String
  | [] => (st, [])
  | t :: ts =>
      if st.hasName t then
        addOutputLoop { st with capturers := addOutputerTo t st.capturers } ts
      else
        let r := addOutputLoop st ts
        (r.1, targetMissingMsg t :: r.2)

/-- Embeds `Storage.AddNewOutput(factFn, targets)`. An empty target list means
"add an outputer to every capturer", with a feedback message when there are no
capturers at all; otherwise the per-name loop runs. The second component is
the list of feedback messages issued. -/
def Storage.addNewOutput (st : Storage) (targets : List String) : Storage × List String :=
  if targets.length = 0 then
    if st.capturers.length = 0 then
      (st, ["There are no running capturers. Use start first.\n"])
    else
      ({ st with capturers := st.capturers.map fun c => { c with outputers := c.outputers + 1 } }, [])
  else
    addOutputLoop st targets

/-! ## Config loading (cmd/tranqap/config.go) -/

/-- The `target` record of the YAML configuration; every field is a pointer in
Go (`nil` = absent), hence `Option` here. -/
structure Target where
  name : Option String
  host : Option String
  port : Option Int
  user : Option String
  key : Option String
  destination : Option String
  filePattern : Option String
  rotationCnt : Option Int
  useSudo : Option Bool
  filterPort : Option Int
deriving DecidableEq

/-- The `configParams` record: the top-level `targets` list. -/
structure ConfigParams where
  targets : List Target
deriving DecidableEq

/-- Embeds the validation and defaulting part of `getClientConfig(t)`: the
checks run in source order; `.ok` carries the target updated with the
defaults the function writes through the pointers (port 22, rotation count 10,
use-sudo false) together with the dial string `host:port`. The subsequent
ssh.ClientConfig construction and private-key file parsing are environment
I/O past the validation and are outside this embedding. -/
def getClientConfig (t : Target) : Except String (Target × String) :=
  match t.name with
  | none => .error "Missing Name in configuration"
  | some name =>
  match t.user with
  | none => .error ("Missing user for target <" ++ name ++ "> in configuration")
  | some _ =>
  match t.key with
  | none => .error ("Missing Key path for target <" ++ name ++ "> in configuration")
  | some _ =>
  match t.host with
  | none => .error ("Missing Host for target <" ++ name ++ "> in configuration")
  | some host =>
  let port : Int := (t.port).getD 22
  match t.destination with
  | none => .error ("Missing destination for target <" ++ name ++ "> in configuration")
  | some _ =>
  match t.filePattern with
  | none => .error ("Missing File Pattern for target <" ++ name ++ ">")
  | some _ =>
  let rot : Int := (t.rotationCnt).getD 10
  if rot < 0 then
    .error ("Invalid rotation count for target <" ++ name ++ "> (" ++ toString rot ++ ")")
  else
  let sudoVal : Bool := (t.useSudo).getD false
  match t.filterPort with
  | some fp =>
      if fp < 1 ∨ 65535 < fp then
        .error ("Invalid port number for Filter port parameter: " ++ toString fp ++
          ". Expected value between 1 and 65535")
      else
        .ok ({ t with port := some port, rotationCnt := some rot, useSudo := some sudoVal },
          host ++ ":" ++ toString port)
  | none =>
      .ok ({ t with port := some port, rotationCnt := some rot, useSudo := some sudoVal },
        host ++ ":" ++ toString port)

/-- The loop of `checkForDuplicates` with its accumulated name set. Each
iteration dereferences `*t.Name`, which panics on a target without a name:
the outer `Option` is `none` on that panic, the inner `Option` is the
returned error, if any. -/
def checkDupLoop (nameSet : List String) : List Target → Option (Option String)
  | [] => some none
  | t :: ts =>
      match t.name with
      | none => none
      | some n =>
          if nameSet.contains n then
            some (some ("target " ++ n ++ " is defined more than once"))
          else
            checkDupLoop (n :: nameSet) ts

/-- Embeds `checkForDuplicates(config)`. -/
def checkForDuplicates (config : ConfigParams) : Option (Option String) :=
  checkDupLoop [] config.targets

/-- Embeds the validation in `parseConfig` after a successful
`yaml.Unmarshal`: the third-party YAML decode is modelled as the identity on
the already-structured document. The empty-targets check runs first, then the
duplicate check; the outer `Option` is `none` if the duplicate check panics. -/
def parseConfig (conf : ConfigParams) : Option (Except String ConfigParams) :=
  if conf.targets.length = 0 then
    some (.error "No targets defined in config")
  else
    match checkForDuplicates conf with
    | none => none
    | some (some e) => some (.error e)
    | some none => some (.ok conf)

/-- The one sample target whose field values `generateSampleConfig` writes. -/
def sampleTarget : Target :=
  { name := some "Target name. Informational identification only."
  , host := some "Hostname/IP address of the target."
  , port := some 22
  , user := some "SSH login."
  , key := some "Path to private key, used for authentication."
  , destination := some "Path to destination dir for the PCAP files."
  , filePattern := some "Filename pattern for each pcap file. Index and file extension will be added to this string."
  , rotationCnt := some 5
  , useSudo := some true
  , filterPort := some 22 }

/-- The structured document `generateSampleConfig` serialises: the top-level
key `targets` mapped to the one sample target. Re-reading the written file
through the third-party YAML library yields this same structured value. -/
def sampleConfig : ConfigParams := { targets := [sampleTarget] }

/-- The header/stream/membership invariant of a MultiOutput: the captured
header is the first (up to) 24 bytes of the input stream; the stream is empty
or already past the header; and every member has received either the whole
stream (it was registered before any input) or the captured header followed by
the stream's bytes from some position `k ≥ 24` (its registration point). -/
def FanInv (mo : MultiOutput) : Prop :=
  mo.pcapHeader = mo.stream.take pcapHeaderSize ∧
  (mo.stream = [] ∨ pcapHeaderSize ≤ mo.stream.length) ∧
  ∀ s ∈ mo.members,
    s.received = mo.stream ∨
    ∃ k, pcapHeaderSize ≤ k ∧ k ≤ mo.stream.length ∧
      s.received = mo.stream.take pcapHeaderSize ++ mo.stream.drop k

/-! ## Concrete instances used to exercise the theorems -/

/-- A trace adding an external sink before any input, then feeding 30 bytes,
then adding a second external sink mid-stream. -/
def opsC1 : List FanOp :=
  [FanOp.addSink 5, FanOp.write (List.range 30), FanOp.addSink 7]

/-- The MultiOutput state (with one construction-time outputer) after
`opsC1`. -/
def moC1 : MultiOutput := (fanRun (MultiOutput.new [0]) opsC1).getD (MultiOutput.new [])

/-- A fresh MultiOutput after one 30-byte Write. -/
def moC2 : MultiOutput :=
  ((MultiOutput.new []).write (List.range 30)).getD (MultiOutput.new [])

/-- A target missing the mandatory user field. -/
def tMissing : Target :=
  { name := some "alpha", host := some "h", port := none, user := none
  , key := some "k", destination := some "d", filePattern := some "p"
  , rotationCnt := none, useSudo := none, filterPort := none }

/-- A target with a negative rotation count. -/
def tNegRot : Target :=
  { name := some "alpha", host := some "h", port := none, user := some "u"
  , key := some "k", destination := some "d", filePattern := some "p"
  , rotationCnt := some (-1), useSudo := none, filterPort := none }

/-- A target with a filter port outside 1..65535. -/
def tBadFilter : Target :=
  { name := some "alpha", host := some "h", port := none, user := some "u"
  , key := some "k", destination := some "d", filePattern := some "p"
  , rotationCnt := none, useSudo := none, filterPort := some 70000 }

/-- A valid target leaving port, rotation count and use-sudo absent. -/
def tDefaults : Target :=
  { name := some "alpha", host := some "h", port := none, user := some "u"
  , key := some "k", destination := some "d", filePattern := some "p"
  , rotationCnt := none, useSudo := none, filterPort := none }

/-- The target `tDefaults` after the loader writes the defaults into it. -/
def tDefaultsRes : Target :=
  { name := some "alpha", host := some "h", port := some 22, user := some "u"
  , key := some "k", destination := some "d", filePattern := some "p"
  , rotationCnt := some 10, useSudo := some false, filterPort := none }

/-! ## Theorems -/

theorem fanInv_new (outs : List Nat) : FanInv (MultiOutput.new outs) := by
  refine ⟨rfl, Or.inl rfl, ?_⟩
  intro s hs
  simp only [MultiOutput.new, List.mem_map] at hs
  obtain ⟨i, _, rfl⟩ := hs
  exact Or.inl rfl

theorem fanInv_step {mo mo' : MultiOutput} {op : FanOp}
    (hinv : FanInv mo) (hstep : fanStep mo op = some mo') : FanInv mo' := by
  obtain ⟨h1, h2, h3⟩ := hinv
  cases op with
  | addSink sid =>
      simp only [fanStep, Option.some.injEq] at hstep
      subst hstep
      refine ⟨h1, h2, ?_⟩
      intro s hs
      simp only [MultiOutput.addExtMember, List.mem_append, List.mem_singleton] at hs
      rcases hs with hs | rfl
      · exact h3 s hs
      · rcases h2 with h2 | h2
        · left
          simp [MultiOutput.addExtMember, h1, h2]
        · right
          exact ⟨mo.stream.length, h2, le_refl _, by
            simp [MultiOutput.addExtMember, h1]⟩
  | write p =>
      simp only [fanStep, MultiOutput.write] at hstep
      by_cases hlt : mo.pcapHeader.length < pcapHeaderSize
      · -- header not complete yet: the stream must be empty
        have hstream : mo.stream = [] := by
          rcases h2 with h2 | h2
          · exact h2
          · exfalso
            have : mo.pcapHeader.length = pcapHeaderSize := by
              rw [h1, List.length_take]
              omega
            omega
        have hhdr : mo.pcapHeader = [] := by simp [h1, hstream]
        simp only [hlt, if_true] at hstep
        by_cases hp : pcapHeaderSize - mo.pcapHeader.length ≤ p.length
        · simp only [hp, if_true, Option.some.injEq] at hstep
          subst hstep
          have hplen : pcapHeaderSize ≤ p.length := by
            rw [hhdr] at hp; simpa using hp
          refine ⟨?_, ?_, ?_⟩
          · simp [hhdr, hstream]
          · right
            simp only [hstream, List.nil_append, List.length_nil]
            omega
          · intro s hs
            simp only [List.mem_map] at hs
            obtain ⟨s₀, hs₀, rfl⟩ := hs
            rcases h3 s₀ hs₀ with hrec | hrec
            · left
              simp [hrec, hstream]
            · obtain ⟨k, hk24, hklen, _⟩ := hrec
              exfalso
              rw [hstream] at hklen
              simp only [List.length_nil] at hklen
              omega
        · simp [hp] at hstep
      · -- header already complete
        simp only [hlt, if_false, Option.some.injEq] at hstep
        subst hstep
        have hlen24 : mo.pcapHeader.length = pcapHeaderSize := by
          rcases h2 with h2 | h2
          · exfalso
            rw [h1, h2] at hlt
            simp [pcapHeaderSize] at hlt
          · rw [h1, List.length_take]
            omega
        have hslen : pcapHeaderSize ≤ mo.stream.length := by
          rcases h2 with h2 | h2
          · exfalso
            rw [h1, h2] at hlt
            simp [pcapHeaderSize] at hlt
          · exact h2
        refine ⟨?_, ?_, ?_⟩
        · rw [h1, List.take_append_of_le_length hslen]
        · right
          simp only [List.length_append]
          omega
        · intro s hs
          simp only [List.mem_map] at hs
          obtain ⟨s₀, hs₀, rfl⟩ := hs
          rcases h3 s₀ hs₀ with hrec | hrec
          · left
            simp [hrec]
          · obtain ⟨k, hk24, hklen, hrec⟩ := hrec
            right
            refine ⟨k, hk24, by simp only [List.length_append]; omega, ?_⟩
            simp only [hrec, List.take_append_of_le_length hslen,
              List.drop_append_of_le_length hklen, List.append_assoc]

theorem fanInv_run {mo mo' : MultiOutput} {ops : List FanOp}
    (hinv : FanInv mo) (hrun : fanRun mo ops = some mo') : FanInv mo' := by
  induction ops generalizing mo with
  | nil => simp only [fanRun, Option.some.injEq] at hrun; subst hrun; exact hinv
  | cons op ops ih =>
      simp only [fanRun, Option.bind_eq_some] at hrun
      obtain ⟨mo₁, hstep, hrun⟩ := hrun
      exact ih (fanInv_step hinv hstep) hrun

theorem header_stable_run {mo mo' : MultiOutput} {ops : List FanOp}
    (h24 : pcapHeaderSize ≤ mo.pcapHeader.length)
    (hrun : fanRun mo ops = some mo') : mo'.pcapHeader = mo.pcapHeader := by
  induction ops generalizing mo with
  | nil => simp only [fanRun, Option.some.injEq] at hrun; subst hrun; rfl
  | cons op ops ih =>
      simp only [fanRun, Option.bind_eq_some] at hrun
      obtain ⟨mo₁, hstep, hrun⟩ := hrun
      have hkeep : mo₁.pcapHeader = mo.pcapHeader := by
        cases op with
        | addSink sid =>
            simp only [fanStep, Option.some.injEq] at hstep
            subst hstep; rfl
        | write p =>
            simp only [fanStep, MultiOutput.write] at hstep
            rw [if_neg (by omega)] at hstep
            simp only [Option.some.injEq] at hstep
            subst hstep; rfl
      rw [ih (by rw [hkeep]; exact h24) hrun, hkeep]

theorem wgCount_run {mo mo' : MultiOutput} {ops : List FanOp}
    (hrun : fanRun mo ops = some mo') :
    mo'.wgCount = mo.wgCount + countAddSink ops := by
  induction ops generalizing mo with
  | nil =>
      simp only [fanRun, Option.some.injEq] at hrun
      subst hrun; simp [countAddSink]
  | cons op ops ih =>
      simp only [fanRun, Option.bind_eq_some] at hrun
      obtain ⟨mo₁, hstep, hrun⟩ := hrun
      have h1 := ih hrun
      cases op with
      | addSink sid =>
          simp only [fanStep, Option.some.injEq] at hstep
          subst hstep
          simp only [MultiOutput.addExtMember] at h1
          simp only [countAddSink, h1]
          omega
      | write p =>
          have hwg : mo₁.wgCount = mo.wgCount := by
            simp only [fanStep, MultiOutput.write] at hstep
            by_cases hlt : mo.pcapHeader.length < pcapHeaderSize
            · rw [if_pos hlt] at hstep
              by_cases hp : pcapHeaderSize - mo.pcapHeader.length ≤ p.length
              · rw [if_pos hp] at hstep
                simp only [Option.some.injEq] at hstep
                subst hstep; rfl
              · rw [if_neg hp] at hstep; cases hstep
            · rw [if_neg hlt] at hstep
              simp only [Option.some.injEq] at hstep
              subst hstep; rfl
          simp only [countAddSink, h1, hwg]

/-- C1: for every MultiOutput run (any construction-time outputers, any
sequence of Writes and AddSink calls that completes without a panic), once the
24-byte header is complete every sink ever added has received exactly the
captured header as its first 24 bytes followed by the stream's record bytes
from its registration point onwards; and AddExtMember hands the currently
captured header bytes to the new sink as its first write, before appending it
to the membership slice. -/
theorem multiOutput_header_replay (outs : List Nat) (ops : List FanOp)
    (mo : MultiOutput) (hrun : fanRun (MultiOutput.new outs) ops = some mo)
    (hfull : mo.pcapHeader.length = pcapHeaderSize) :
    (∀ s ∈ mo.members, ∃ k, pcapHeaderSize ≤ k ∧ k ≤ mo.stream.length ∧
        s.received = mo.pcapHeader ++ mo.stream.drop k) ∧
    (∀ sid, (mo.addExtMember sid).members =
        mo.members ++ [{ sid := sid, received := mo.pcapHeader }]) := by
  obtain ⟨h1, h2, h3⟩ := fanInv_run (fanInv_new outs) hrun
  constructor
  · intro s hs
    have hslen : pcapHeaderSize ≤ mo.stream.length := by
      rcases h2 with h2 | h2
      · rw [h1, h2] at hfull
        simp [pcapHeaderSize] at hfull
      · exact h2
    rcases h3 s hs with hrec | hrec
    · refine ⟨pcapHeaderSize, le_refl _, hslen, ?_⟩
      rw [hrec, h1, List.take_append_drop]
    · obtain ⟨k, hk, hkl, hr⟩ := hrec
      exact ⟨k, hk, hkl, by rw [hr, h1]⟩
  · intro sid
    rfl

/-- Witness for C1 at the concrete trace `opsC1` on a MultiOutput built with
one construction-time outputer. -/
theorem multiOutput_header_replay_witness :
    (∀ s ∈ moC1.members, ∃ k, pcapHeaderSize ≤ k ∧ k ≤ moC1.stream.length ∧
        s.received = moC1.pcapHeader ++ moC1.stream.drop k) ∧
    (∀ sid, (moC1.addExtMember sid).members =
        moC1.members ++ [{ sid := sid, received := moC1.pcapHeader }]) :=
  multiOutput_header_replay [0] opsC1 moC1 (by decide) (by decide)

/-- C2 (amended): a Write seen while the header is incomplete either appends
exactly the still-missing prefix — which requires the incoming buffer to hold
at least that many bytes, and completes the header in that one step — or, when
the buffer is shorter than the missing count, panics on the out-of-range slice
expression instead of capturing a partial prefix; the header only ever grows,
and once complete no later Write modifies it. -/
theorem write_header_capture (mo mo' : MultiOutput) (p : List Byte)
    (h : mo.write p = some mo') :
    (pcapHeaderSize ≤ mo.pcapHeader.length → mo'.pcapHeader = mo.pcapHeader) ∧
    (mo.pcapHeader.length < pcapHeaderSize →
      pcapHeaderSize - mo.pcapHeader.length ≤ p.length ∧
      mo'.pcapHeader = mo.pcapHeader ++ p.take (pcapHeaderSize - mo.pcapHeader.length) ∧
      mo'.pcapHeader.length = pcapHeaderSize) ∧
    (∃ l, mo'.pcapHeader = mo.pcapHeader ++ l) ∧
    (∀ q : List Byte, mo.pcapHeader.length < pcapHeaderSize →
      q.length < pcapHeaderSize - mo.pcapHeader.length → mo.write q = none) ∧
    (∀ ops mo'', pcapHeaderSize ≤ mo'.pcapHeader.length →
      fanRun mo' ops = some mo'' → mo''.pcapHeader = mo'.pcapHeader) := by
  have hshort : ∀ q : List Byte, mo.pcapHeader.length < pcapHeaderSize →
      q.length < pcapHeaderSize - mo.pcapHeader.length → mo.write q = none := by
    intro q hlt hq
    simp only [MultiOutput.write]
    rw [if_pos hlt, if_neg (by omega)]
  refine ?_
  by_cases hlt : mo.pcapHeader.length < pcapHeaderSize
  · simp only [MultiOutput.write, if_pos hlt] at h
    by_cases hp : pcapHeaderSize - mo.pcapHeader.length ≤ p.length
    · rw [if_pos hp] at h
      simp only [Option.some.injEq] at h
      subst h
      refine ⟨by omega, fun _ => ⟨hp, rfl, ?_⟩, ⟨_, rfl⟩, hshort,
        fun ops mo'' h24 hrun => header_stable_run h24 hrun⟩
      simp only [List.length_append, List.length_take]
      omega
    · rw [if_neg hp] at h
      cases h
  · simp only [MultiOutput.write, if_neg hlt, Option.some.injEq] at h
    subst h
    exact ⟨fun _ => rfl, by omega, ⟨[], by simp⟩, hshort,
      fun ops mo'' h24 hrun => header_stable_run h24 hrun⟩

/-- Witness for the amended C2: a fresh MultiOutput written a 30-byte buffer,
whose first 24 bytes become the header. -/
theorem write_header_capture_witness :
    (pcapHeaderSize ≤ (MultiOutput.new []).pcapHeader.length →
      moC2.pcapHeader = (MultiOutput.new []).pcapHeader) ∧
    ((MultiOutput.new []).pcapHeader.length < pcapHeaderSize →
      pcapHeaderSize - (MultiOutput.new []).pcapHeader.length ≤ (List.range 30).length ∧
      moC2.pcapHeader = (MultiOutput.new []).pcapHeader ++
        (List.range 30).take (pcapHeaderSize - (MultiOutput.new []).pcapHeader.length) ∧
      moC2.pcapHeader.length = pcapHeaderSize) ∧
    (∃ l, moC2.pcapHeader = (MultiOutput.new []).pcapHeader ++ l) ∧
    (∀ q : List Byte, (MultiOutput.new []).pcapHeader.length < pcapHeaderSize →
      q.length < pcapHeaderSize - (MultiOutput.new []).pcapHeader.length →
      (MultiOutput.new []).write q = none) ∧
    (∀ ops mo'', pcapHeaderSize ≤ moC2.pcapHeader.length →
      fanRun moC2 ops = some mo'' → mo''.pcapHeader = moC2.pcapHeader) :=
  write_header_capture (MultiOutput.new []) moC2 (List.range 30) (by decide)

/-- Counterexample to C2 as stated: a Write of a 3-byte buffer to a fresh
MultiOutput panics on the slice expression `p[0:24]` (modelled as `none`),
whereas the claim's `min(len(p), 24 - captured)` rule would have the header
become exactly those 3 bytes. -/
theorem write_short_buffer_cex :
    (MultiOutput.new []).write [1, 2, 3] = none ∧
    specHeaderAfterWrite [] [1, 2, 3] = [1, 2, 3] := by
  constructor
  · rfl
  · decide

/-- C8: construction-time outputers never contribute to the outstanding-sinks
wait-group counter — it starts at zero whatever outputers `NewMultiOutput`
received — and after any panic-free trace the counter equals exactly the
number of AddExtMember calls in the trace, so `Close`'s `wg.Wait()` only waits
for lifecycle events of externally added sinks. -/
theorem extMember_wg_accounting (outs : List Nat) (ops : List FanOp)
    (mo : MultiOutput) (hrun : fanRun (MultiOutput.new outs) ops = some mo) :
    (MultiOutput.new outs).wgCount = 0 ∧ mo.wgCount = countAddSink ops := by
  refine ⟨rfl, ?_⟩
  have h := wgCount_run hrun
  simpa [MultiOutput.new] using h

/-- Witness for C8 at the concrete trace `opsC1`: two AddSink calls, counter
2, regardless of the construction-time outputer. -/
theorem extMember_wg_accounting_witness :
    (MultiOutput.new [0]).wgCount = 0 ∧ moC1.wgCount = countAddSink opsC1 :=
  extMember_wg_accounting [0] opsC1 moC1 (by decide)

theorem removeByName_length {n : String} {cs : List Capturer}
    (h : cs.any (fun c => c.name == n) = true) :
    (removeByName n cs).length + 1 = cs.length := by
  induction cs with
  | nil => simp at h
  | cons c cs ih =>
      by_cases hc : (c.name == n) = true
      · simp [removeByName, hc]
      · simp only [List.any_cons, Bool.or_eq_true] at h
        rcases h with h | h
        · exact absurd h hc
        · simp [removeByName, hc, ← ih h]

theorem removeByName_not_found {n : String} {cs : List Capturer}
    (h : cs.any (fun c => c.name == n) = false) :
    removeByName n cs = cs := by
  induction cs with
  | nil => rfl
  | cons c cs ih =>
      simp only [List.any_cons, Bool.or_eq_false_iff] at h
      simp [removeByName, h.1, ih h.2]

theorem storage_wg_invariant_aux (ops : List StorOp) (st : Storage)
    (hwg : st.wgCount = st.capturers.length)
    (hgood : goodTrace st ops = true) :
    ∃ st', storRun st ops = some st' ∧ st'.wgCount = st'.capturers.length := by
  induction ops generalizing st with
  | nil => exact ⟨st, rfl, hwg⟩
  | cons op ops ih =>
      cases op with
      | add c =>
          simp only [goodTrace] at hgood
          have h2 : (st.add c).1.wgCount = (st.add c).1.capturers.length := by
            simp only [Storage.add]
            by_cases hc : st.hasName c.name = true
            · simp [hc, hwg]
            · simp only [Bool.not_eq_true] at hc
              simp [hc, hwg]
          obtain ⟨st', h3, h4⟩ := ih (st.add c).1 h2 hgood
          exact ⟨st', by simp [storRun, storStep, h3], h4⟩
      | event n =>
          simp only [goodTrace] at hgood
          cases hev : st.eventStep n with
          | none => rw [hev] at hgood; cases hgood
          | some st₁ =>
              rw [hev] at hgood
              simp only [Bool.and_eq_true] at hgood
              obtain ⟨hname, hgood⟩ := hgood
              have hwg0 : ¬ st.wgCount = 0 := by
                intro h0
                simp [Storage.eventStep, h0] at hev
              have hst₁ : st₁ = { capturers := removeByName n st.capturers
                                , wgCount := st.wgCount - 1 } := by
                simp only [Storage.eventStep, if_neg hwg0, Option.some.injEq] at hev
                exact hev.symm
              have h2 : st₁.wgCount = st₁.capturers.length := by
                subst hst₁
                simp only
                have hlen := removeByName_length hname
                omega
              obtain ⟨st', h3, h4⟩ := ih st₁ h2 hgood
              exact ⟨st', by simp [storRun, storStep, hev, h3], h4⟩

/-- C3 (amended): along every Registry trace in which each lifecycle event
names a capturer still present in the map, the wait-group counter equals the
number of map entries after every operation; but the handler is not safe
against duplicate events — an event naming an absent capturer leaves the map
untouched (the removal is a no-op) while still decrementing the wait-group
counter (panicking when it is zero), so the counter invariant is not preserved
under duplicate events. -/
theorem registry_wg_counter (ops : List StorOp)
    (hgood : goodTrace Storage.new ops = true) :
    (∃ st, storRun Storage.new ops = some st ∧
      st.wgCount = st.capturers.length) ∧
    (∀ s : Storage, ∀ n, s.hasName n = false →
      s.eventStep n = if s.wgCount = 0 then none
        else some { capturers := s.capturers, wgCount := s.wgCount - 1 }) := by
  constructor
  · exact storage_wg_invariant_aux ops Storage.new rfl hgood
  · intro s n hn
    simp only [Storage.eventStep, removeByName_not_found hn]

/-- Witness for the amended C3 at a concrete trace: one Add followed by the
matching lifecycle event. -/
theorem registry_wg_counter_witness :
    (∃ st, storRun Storage.new
        [StorOp.add { name := "a", cid := 0, outputers := 0 }, StorOp.event "a"] =
        some st ∧ st.wgCount = st.capturers.length) ∧
    (∀ s : Storage, ∀ n, s.hasName n = false →
      s.eventStep n = if s.wgCount = 0 then none
        else some { capturers := s.capturers, wgCount := s.wgCount - 1 }) :=
  registry_wg_counter
    [StorOp.add { name := "a", cid := 0, outputers := 0 }, StorOp.event "a"]
    (by decide)

/-- Counterexample to C3 as stated: add capturers "a" and "b", deliver the
event for "a" twice. The second (duplicate) event's map removal is a no-op,
but `wg.Done()` still runs, so the trace ends with one map entry and a zero
wait-group counter — the claimed counter invariant is violated. -/
theorem registry_duplicate_event_cex :
    storRun Storage.new
      [StorOp.add { name := "a", cid := 0, outputers := 0 },
       StorOp.add { name := "b", cid := 1, outputers := 0 },
       StorOp.event "a", StorOp.event "a"] =
      some { capturers := [{ name := "b", cid := 1, outputers := 0 }], wgCount := 0 } ∧
    ¬ ((0 : Nat) = ([{ name := "b", cid := 1, outputers := 0 }] : List Capturer).length) := by
  constructor
  · decide
  · decide

/-- C4: adding a second capturer under an already-held name fails with the
duplicate error and leaves the Registry unchanged — the returned state is the
old one, it still holds the previously added capturer under that name, and the
wait-group counter is not incremented. -/
theorem add_duplicate_rejected (st : Storage) (capA capB : Capturer)
    (hA : st.capturers.find? (fun c => c.name == capA.name) = some capA)
    (hname : capB.name = capA.name) :
    st.add capB = (st, some ("capturer [" ++ capB.name ++ "] already exists")) ∧
    (st.add capB).1.capturers.find? (fun c => c.name == capA.name) = some capA ∧
    (st.add capB).1.wgCount = st.wgCount := by
  have hmemA : capA ∈ st.capturers := List.mem_of_find?_eq_some hA
  have hpA : (capA.name == capA.name) = true := by simp
  have hmem : st.hasName capB.name = true := by
    simp only [Storage.hasName, List.any_eq_true]
    exact ⟨capA, hmemA, by rw [hname]; exact hpA⟩
  refine ⟨?_, ?_, ?_⟩
  · simp [Storage.add, hmem]
  · simp [Storage.add, hmem, hA]
  · simp [Storage.add, hmem]

/-- Witness for C4: a Registry holding "alpha" and "beta" rejects a second
"alpha". -/
theorem add_duplicate_rejected_witness :
    ({ capturers := [{ name := "alpha", cid := 0, outputers := 0 },
                     { name := "beta", cid := 1, outputers := 0 }]
     , wgCount := 2 } : Storage).add { name := "alpha", cid := 2, outputers := 0 } =
      ({ capturers := [{ name := "alpha", cid := 0, outputers := 0 },
                       { name := "beta", cid := 1, outputers := 0 }]
       , wgCount := 2 },
       some ("capturer [" ++ "alpha" ++ "] already exists")) ∧
    (({ capturers := [{ name := "alpha", cid := 0, outputers := 0 },
                      { name := "beta", cid := 1, outputers := 0 }]
      , wgCount := 2 } : Storage).add
        { name := "alpha", cid := 2, outputers := 0 }).1.capturers.find?
      (fun c => c.name == ({ name := "alpha", cid := 0, outputers := 0 } : Capturer).name) =
      some { name := "alpha", cid := 0, outputers := 0 } ∧
    (({ capturers := [{ name := "alpha", cid := 0, outputers := 0 },
                      { name := "beta", cid := 1, outputers := 0 }]
      , wgCount := 2 } : Storage).add
        { name := "alpha", cid := 2, outputers := 0 }).1.wgCount =
      ({ capturers := [{ name := "alpha", cid := 0, outputers := 0 },
                       { name := "beta", cid := 1, outputers := 0 }]
       , wgCount := 2 } : Storage).wgCount :=
  add_duplicate_rejected
    { capturers := [{ name := "alpha", cid := 0, outputers := 0 },
                    { name := "beta", cid := 1, outputers := 0 }]
    , wgCount := 2 }
    { name := "alpha", cid := 0, outputers := 0 }
    { name := "alpha", cid := 2, outputers := 0 }
    (by decide) (by decide)

theorem addOutputerTo_any {n u : String} {cs : List Capturer} :
    ((addOutputerTo n cs).any fun c => c.name == u) = (cs.any fun c => c.name == u) := by
  induction cs with
  | nil => rfl
  | cons c cs ih =>
      by_cases hc : (c.name == n) = true
      · simp [addOutputerTo, hc]
      · simp [addOutputerTo, hc, ih]

theorem addOutputerTo_map_incr {t : String} {cs : List Capturer} (cnt : String → Nat)
    (hnd : (cs.map fun c => c.name).Nodup) :
    (addOutputerTo t cs).map (fun c => { c with outputers := c.outputers + cnt c.name }) =
      cs.map (fun c =>
        { c with outputers :=
            c.outputers + (cnt c.name + if (t == c.name) = true then 1 else 0) }) := by
  induction cs with
  | nil => rfl
  | cons c cs ih =>
      simp only [List.map_cons, List.nodup_cons, List.mem_map] at hnd
      obtain ⟨hnotin, hnd⟩ := hnd
      by_cases hc : (c.name == t) = true
      · have hct : c.name = t := by simpa using hc
        have htc : (t == c.name) = true := by simp [hct]
        have htail : ∀ c' ∈ cs, (t == c'.name) = false := by
          intro c' hc'
          by_contra hne
          simp only [Bool.not_eq_false, beq_iff_eq] at hne
          exact hnotin ⟨c', hc', by rw [← hne, hct]⟩
        simp only [addOutputerTo, if_pos hc, List.map_cons, List.cons.injEq]
        refine ⟨?_, ?_⟩
        · have h1 : (if (t == c.name) = true then 1 else 0) = 1 := by simp [htc]
          rw [h1]
          have h2 : c.outputers + 1 + cnt c.name = c.outputers + (cnt c.name + 1) := by
            omega
          rw [h2]
        · refine (List.map_congr_left ?_).symm
          intro c' hc'
          simp [htail c' hc']
      · have htc : (t == c.name) = false := by
          by_contra hne
          simp only [Bool.not_eq_false, beq_iff_eq] at hne
          simp [hne] at hc
        simp only [addOutputerTo, if_neg hc, List.map_cons, List.cons.injEq]
        refine ⟨?_, ?_⟩
        · simp [htc]
        · exact ih hnd

theorem addOutputerTo_names {n : String} {cs : List Capturer} :
    (addOutputerTo n cs).map (fun c => c.name) = cs.map (fun c => c.name) := by
  induction cs with
  | nil => rfl
  | cons c cs ih =>
      by_cases hc : (c.name == n) = true
      · simp [addOutputerTo, hc]
      · simp [addOutputerTo, hc, ih]

theorem addOutputLoop_feedback (ts : List String) (st : Storage) :
    (addOutputLoop st ts).2 =
      (ts.filter fun t => !(st.hasName t)).map targetMissingMsg := by
  induction ts generalizing st with
  | nil => rfl
  | cons t ts ih =>
      by_cases ht : st.hasName t = true
      · have hstep : addOutputLoop st (t :: ts) =
            addOutputLoop { st with capturers := addOutputerTo t st.capturers } ts := by
          simp [addOutputLoop, ht]
        rw [hstep, ih]
        have hfilter :
            (ts.filter fun u =>
              !(({ st with capturers := addOutputerTo t st.capturers } : Storage).hasName u)) =
              ts.filter fun u => !(st.hasName u) := by
          refine List.filter_congr ?_
          intro u _
          have h : (({ st with capturers := addOutputerTo t st.capturers } : Storage).hasName u) =
              st.hasName u := by
            simp only [Storage.hasName]
            exact addOutputerTo_any
          rw [h]
        rw [hfilter, List.filter_cons]
        simp [ht]
      · have ht' : st.hasName t = false := by simpa using ht
        simp [addOutputLoop, ht', ih, List.filter_cons]

theorem addOutputLoop_capturers (ts : List String) (st : Storage)
    (hnd : (st.capturers.map fun c => c.name).Nodup) :
    (addOutputLoop st ts).1.capturers = st.capturers.map fun c =>
      { c with outputers := c.outputers + ts.countP fun x => x == c.name } := by
  induction ts generalizing st with
  | nil =>
      simp only [addOutputLoop, List.countP_nil, Nat.add_zero]
      exact ((List.map_congr_left (g := fun c => c) fun c _ => rfl).trans
        (List.map_id st.capturers)).symm
  | cons t ts ih =>
      by_cases ht : st.hasName t = true
      · have hnd' : ((addOutputerTo t st.capturers).map fun c => c.name).Nodup := by
          rw [addOutputerTo_names]; exact hnd
        have hstep : addOutputLoop st (t :: ts) =
            addOutputLoop { st with capturers := addOutputerTo t st.capturers } ts := by
          simp [addOutputLoop, ht]
        rw [hstep, ih { st with capturers := addOutputerTo t st.capturers } hnd']
        have hmap := addOutputerTo_map_incr (t := t)
          (fun nm => ts.countP fun x => x == nm) hnd
        refine Eq.trans hmap ?_
        refine List.map_congr_left fun c _ => ?_
        rw [List.countP_cons]
      · have hnone : ∀ c ∈ st.capturers, (t == c.name) = false := by
          intro c hc
          by_contra hne
          simp only [Bool.not_eq_false, beq_iff_eq] at hne
          have hmem : st.hasName t = true := by
            simp only [Storage.hasName, List.any_eq_true]
            exact ⟨c, hc, by simp [hne]⟩
          exact ht hmem
        have ht' : st.hasName t = false := by simpa using ht
        have hstep : addOutputLoop st (t :: ts) =
            ((addOutputLoop st ts).1,
              targetMissingMsg t :: (addOutputLoop st ts).2) := by
          simp [addOutputLoop, ht']
        rw [hstep]
        simp only
        rw [ih st hnd]
        refine List.map_congr_left fun c hc => ?_
        simp [List.countP_cons, hnone c hc]

/-- C5: a Broadcast (`AddNewOutput`) with a non-empty target-name list issues,
in order, exactly one feedback message "Target <name> doesn't exist.\n" per
requested name that is absent from the Registry, and updates the capturer map
by giving each capturer one new sink per occurrence of its name in the request
— in particular absent names add a sink to no capturer, and present names get
`AddOutputer` invoked on exactly the matching capturer. -/
theorem addNewOutput_unknown_targets (st : Storage) (targets : List String)
    (hnd : (st.capturers.map fun c => c.name).Nodup) (hne : targets ≠ []) :
    (st.addNewOutput targets).2 =
      (targets.filter fun t => !(st.hasName t)).map targetMissingMsg ∧
    (st.addNewOutput targets).1.capturers = st.capturers.map fun c =>
      { c with outputers := c.outputers + targets.countP fun x => x == c.name } := by
  have hlen : ¬ targets.length = 0 := fun h => hne (List.length_eq_zero.mp h)
  simp only [Storage.addNewOutput, if_neg hlen]
  exact ⟨addOutputLoop_feedback targets st, addOutputLoop_capturers targets st hnd⟩

/-- Witness for C5: a Registry holding "alpha" and "beta" broadcast the single
unknown name "gamma". -/
theorem addNewOutput_unknown_targets_witness :
    (({ capturers := [{ name := "alpha", cid := 0, outputers := 0 },
                      { name := "beta", cid := 1, outputers := 0 }]
      , wgCount := 2 } : Storage).addNewOutput ["gamma"]).2 =
      ((["gamma"]).filter fun t =>
        !(({ capturers := [{ name := "alpha", cid := 0, outputers := 0 },
                           { name := "beta", cid := 1, outputers := 0 }]
           , wgCount := 2 } : Storage).hasName t)).map targetMissingMsg ∧
    (({ capturers := [{ name := "alpha", cid := 0, outputers := 0 },
                      { name := "beta", cid := 1, outputers := 0 }]
      , wgCount := 2 } : Storage).addNewOutput ["gamma"]).1.capturers =
      ([{ name := "alpha", cid := 0, outputers := 0 },
        { name := "beta", cid := 1, outputers := 0 }] : List Capturer).map fun c =>
        { c with outputers := c.outputers + (["gamma"]).countP fun x => x == c.name } :=
  addNewOutput_unknown_targets
    { capturers := [{ name := "alpha", cid := 0, outputers := 0 },
                    { name := "beta", cid := 1, outputers := 0 }]
    , wgCount := 2 }
    ["gamma"] (by decide) (by decide)

/-- C9: `StopAll` on a nil Storage receiver takes the guard branch — it
returns without a panic, leaves the (absent) state as it was, and stops no
capturer. -/
theorem stopAll_nil_receiver : Storage.stopAll none = some (none, []) := rfl

/-- C6: the target validator rejects (with an error) any target missing one of
the mandatory fields name, user, key, host, destination or file-pattern;
defaults port to 22, rotation count to 10 and use-sudo to false when absent;
and rejects a negative rotation count and a filter port outside 1..65535. -/
theorem getClientConfig_validation (t : Target) :
    ((t.name = none ∨ t.user = none ∨ t.key = none ∨ t.host = none ∨
        t.destination = none ∨ t.filePattern = none) →
      (getClientConfig t).isOk = false) ∧
    (∀ t' d, getClientConfig t = .ok (t', d) →
      (t.port = none → t'.port = some 22) ∧
      (t.rotationCnt = none → t'.rotationCnt = some 10) ∧
      (t.useSudo = none → t'.useSudo = some false)) ∧
    (∀ r, t.rotationCnt = some r → r < 0 → (getClientConfig t).isOk = false) ∧
    (∀ fp, t.filterPort = some fp → (fp < 1 ∨ 65535 < fp) →
      (getClientConfig t).isOk = false) := by
  obtain ⟨nm, ho, po, us, ke, de, fpat, ro, su, fpo⟩ := t
  refine ⟨?_, ?_, ?_, ?_⟩
  · intro h
    cases nm <;> cases us <;> cases ke <;> cases ho <;> cases de <;> cases fpat <;>
      simp only [getClientConfig, Except.isOk, Except.toBool] <;> simp_all
  · intro t' d hok
    cases nm <;> cases us <;> cases ke <;> cases ho <;> cases de <;> cases fpat <;>
      simp only [getClientConfig] at hok <;> try cases hok
    cases po <;> cases ro <;> cases su <;> cases fpo <;>
      simp only [Option.getD] at hok <;>
      (try split at hok) <;> (try split at hok) <;> simp_all <;>
      (obtain ⟨ht', hd⟩ := hok; subst ht'; simp)
  · intro r hr hneg
    cases ro with
    | none => exact absurd hr (by simp)
    | some r' =>
        have hrr : r' = r := by simpa using hr
        subst hrr
        cases nm <;> cases us <;> cases ke <;> cases ho <;> cases de <;> cases fpat <;>
          simp only [getClientConfig, Except.isOk, Except.toBool] <;> try rfl
        simp only [Option.getD]
        rw [if_pos hneg]
  · intro fp hfp hrange
    cases fpo with
    | none => exact absurd hfp (by simp)
    | some fq =>
        have hqq : fq = fp := by simpa using hfp
        subst hqq
        cases nm <;> cases us <;> cases ke <;> cases ho <;> cases de <;> cases fpat <;>
          simp only [getClientConfig, Except.isOk, Except.toBool] <;> try rfl
        cases ro with
        | none =>
            have h10 : ¬ ((none : Option Int).getD 10 < 0) := by norm_num
            rw [if_neg h10, if_pos hrange]
        | some r =>
            by_cases hr : (Option.getD (some r) 10) < 0
            · rw [if_pos hr]
            · rw [if_neg hr, if_pos hrange]

/-- Witness for C6 at concrete targets: a missing user, a negative rotation
count and an out-of-range filter port are each rejected, and a valid target
with absent optional fields comes back with the documented defaults. -/
theorem getClientConfig_validation_witness :
    (getClientConfig tMissing).isOk = false ∧
    (getClientConfig tNegRot).isOk = false ∧
    (getClientConfig tBadFilter).isOk = false ∧
    tDefaultsRes.port = some 22 ∧
    tDefaultsRes.rotationCnt = some 10 ∧
    tDefaultsRes.useSudo = some false :=
  ⟨(getClientConfig_validation tMissing).1 (Or.inr (Or.inl rfl)),
   (getClientConfig_validation tNegRot).2.2.1 (-1) rfl (by norm_num),
   (getClientConfig_validation tBadFilter).2.2.2 70000 rfl (Or.inr (by norm_num)),
   ((getClientConfig_validation tDefaults).2.1 tDefaultsRes ("h" ++ ":" ++ toString (22 : Int))
     (by rfl)).1 rfl,
   ((getClientConfig_validation tDefaults).2.1 tDefaultsRes ("h" ++ ":" ++ toString (22 : Int))
     (by rfl)).2.1 rfl,
   ((getClientConfig_validation tDefaults).2.1 tDefaultsRes ("h" ++ ":" ++ toString (22 : Int))
     (by rfl)).2.2 rfl⟩

/-- C10: a configuration document that parses to an empty targets list makes
the loader return the "No targets defined in config" error rather than an
empty valid configuration. -/
theorem parseConfig_empty_targets (conf : ConfigParams) (h : conf.targets = []) :
    parseConfig conf = some (.error "No targets defined in config") := by
  simp [parseConfig, h]

/-- Witness for C10 at the literally empty document. -/
theorem parseConfig_empty_targets_witness :
    parseConfig { targets := [] } = some (.error "No targets defined in config") :=
  parseConfig_empty_targets { targets := [] } rfl

/-- C7: the sample configuration document generated by the init subcommand,
re-read by the config loader, validates without error: it has a non-empty
(one-element) targets list and the duplicate check passes. -/
theorem sampleConfig_validates :
    parseConfig sampleConfig = some (.ok sampleConfig) ∧
    sampleConfig.targets.length = 1 ∧
    checkForDuplicates sampleConfig = some none := by
  refine ⟨rfl, rfl, rfl⟩

end Tranqap
